import Mathlib

/-!
Verification development for the PyOFPost repository.

The Python sources (src/pyofpost/FoamCase.py, src/pyofpost/MLUtilities.py and
the older copy src/FoamCase.py) are shallowly embedded below.  Text lines are
modelled as lists of characters, numeric values as exact rationals (IEEE
rounding is not at issue in any claim; a numpy NaN is modelled as `none` in
`Option ℚ`), and Python exceptions as `Except`/`Option` failure values.
External library calls that the spec declares black boxes (scipy `griddata`)
are parameters of the embedding; `np.random.choice` is a sampler parameter as
the spec's design notes direct ("thread an explicit random-source handle").
-/

attribute [local semireducible] Rat.add Rat.sub Rat.mul Rat.inv Rat.ofScientific

deriving instance DecidableEq for Except

namespace PyOFPost

/-- A line of text, as the character list of the Python string (without the
trailing newline, which none of the embedded operations is sensitive to). -/
abbrev Line := List Char

/-- Character list of a string literal. -/
def chars (s : String) : Line := s.toList

/-- Whitespace recognised by Python str.split with no arguments. -/
def isWsChar (c : Char) : Bool :=
  c = ' ' || c = '\t' || c = '\n' || c = '\r' || c = Char.ofNat 11 || c = Char.ofNat 12

/-- Helper for `splitWs`: accumulates the current token (reversed). -/
def splitWsAux : Line → Line → List Line
  | [], acc => if acc.isEmpty then [] else [acc.reverse]
  | c :: r, acc =>
    if isWsChar c then
      if acc.isEmpty then splitWsAux r [] else acc.reverse :: splitWsAux r []
    else splitWsAux r (c :: acc)

/-- Python `s.split()`: split on whitespace runs, dropping empty tokens. -/
def splitWs (l : Line) : List Line := splitWsAux l []

/-- Python `s.strip()` restricted to whitespace. -/
def trimWs (l : Line) : Line :=
  ((l.dropWhile isWsChar).reverse.dropWhile isWsChar).reverse

/-- Python `s.strip(";")`: remove leading and trailing semicolons. -/
def stripSemi (l : Line) : Line :=
  ((l.dropWhile (fun c => c == ';')).reverse.dropWhile (fun c => c == ';')).reverse

/-- Python `re.sub(r'\(|\)', '', s)`: delete every parenthesis. -/
def parenDrop (l : Line) : Line := l.filter (fun c => !(c == '(' || c == ')'))

/-- Python `s.replace(";", "")`: delete every semicolon. -/
def semiDrop (l : Line) : Line := l.filter (fun c => !(c == ';'))

/-- Python substring test `pat in s`. -/
def hasSub (pat : Line) : Line → Bool
  | [] => pat.isEmpty
  | c :: r => pat.isPrefixOf (c :: r) || hasSub pat r

/-- Effectful map over `Option` (the behaviour of mapping Python `float`
over tokens: any failure aborts with the exception). -/
def optTraverse {α β : Type} (f : α → Option β) : List α → Option (List β)
  | [] => some []
  | a :: as =>
    match f a, optTraverse f as with
    | some b, some bs => some (b :: bs)
    | _, _ => none

/-- Numeric value of a digit string (most significant digit first). -/
def digitsToNat (ds : Line) : ℕ :=
  ds.foldl (fun a c => 10 * a + (c.toNat - 48)) 0

/-- Core of Python `float(token)` on already-trimmed input: optional sign,
decimal digits with optional point, optional exponent.  The value is exact
(a rational); inputs float() would reject yield `none`. -/
def pyFloatCore (l : Line) : Option ℚ :=
  let sgn : ℚ := match l with
    | '-' :: _ => -1
    | _ => 1
  let l1 : Line := match l with
    | '+' :: r => r
    | '-' :: r => r
    | _ => l
  let ip := l1.takeWhile Char.isDigit
  let r1 := l1.dropWhile Char.isDigit
  let fp : Line := match r1 with
    | '.' :: r => r.takeWhile Char.isDigit
    | _ => []
  let r2 : Line := match r1 with
    | '.' :: r => r.dropWhile Char.isDigit
    | _ => r1
  if ip.isEmpty && fp.isEmpty then none
  else
    let mant : ℚ := sgn * ((digitsToNat ip : ℚ) + (digitsToNat fp : ℚ) / ((10 : ℚ) ^ fp.length))
    match r2 with
    | [] => some mant
    | e :: r3 =>
      if e = 'e' || e = 'E' then
        let pos : Bool := match r3 with
          | '-' :: _ => false
          | _ => true
        let r4 : Line := match r3 with
          | '+' :: r => r
          | '-' :: r => r
          | _ => r3
        let ed := r4.takeWhile Char.isDigit
        let r5 := r4.dropWhile Char.isDigit
        if ed.isEmpty || !r5.isEmpty then none
        else some (if pos then mant * (10 : ℚ) ^ digitsToNat ed
                   else mant / (10 : ℚ) ^ digitsToNat ed)
      else none

/-- Python `float(s)` (decimal forms; inf/nan/underscores are never produced
by the files this parser reads). -/
def pyFloat (l : Line) : Option ℚ := pyFloatCore (trimWs l)

/-- Python `int(s)`: optional sign and decimal digits, surrounding whitespace
allowed; anything else raises, modelled as `none`. -/
def pyInt (l : Line) : Option ℤ :=
  let t := trimWs l
  let sgn : ℤ := match t with
    | '-' :: _ => -1
    | _ => 1
  let t1 : Line := match t with
    | '+' :: r => r
    | '-' :: r => r
    | _ => t
  if t1.isEmpty || !t1.all Char.isDigit then none
  else some (sgn * (digitsToNat t1 : ℤ))

/-- Per-cell data of a parsed field: one float per row (scalar fields) or a
float tuple per row (vector/tensor fields).  A scalar entry numpy could not
convert is `none` (numpy's nan fill). -/
inductive FieldData where
  | scalar (vals : List (Option ℚ))
  | vector (rows : List (List ℚ))
deriving DecidableEq

/-- A uniform field value: one scalar or one float tuple. -/
inductive UniformVal where
  | scalar (v : ℚ)
  | vector (vs : List ℚ)
deriving DecidableEq

/-- The dictionary `self.fields[item]` built by `FoamTimeSave.read_fields`
for one file: each key is optional because the Python code adds keys one by
one and may stop before any of them. -/
structure FieldEntry where
  ftype : Option Line := none
  nCells : Option ℤ := none
  data : Option FieldData := none
  uniformValue : Option UniformVal := none
deriving DecidableEq

/-- Model of `np.genfromtxt(path, skip_header=skips, max_rows=n)` for a
single-column file: skip `skips` lines, take up to `n` non-blank rows, parse
the row's first token as a float with nan (`none`) for unconvertible rows. -/
def gftScalar (ls : List Line) (skips : ℕ) (n : ℤ) : List (Option ℚ) :=
  ((((ls.drop skips).filter (fun l => !(splitWs l).isEmpty)).take n.toNat).map
    (fun l => pyFloat ((splitWs l).headD [])))

/-- The vector/tensor nonuniform data block: `lines[skips : skips+n]` with
parentheses removed, each row split on whitespace and parsed as floats
(`float` raising on any token is modelled by the `Option`). -/
def vectorRows (ls : List Line) (skips : ℕ) (n : ℤ) : Option (List (List ℚ)) :=
  optTraverse (fun l => optTraverse pyFloat (splitWs l)) (((ls.drop skips).take n.toNat).map parenDrop)

/-- The `if "class" in line` statement of `read_fields`:
`self.fields[item]["type"] = line.split()[1].strip(";")`. -/
def classUpdate (line : Line) (e : FieldEntry) : Except Unit FieldEntry :=
  if hasSub (chars "class") line then
    match (splitWs line).get? 1 with
    | some tok => .ok { e with ftype := some (stripSemi tok) }
    | none => .error ()
  else .ok e

/-- The `elif "uniform" in line` branch of `read_fields`. -/
def uniformUpdate (line : Line) (e : FieldEntry) : Except Unit FieldEntry :=
  match e.ftype with
  | none => .error ()
  | some t =>
    if t = chars "volScalarField" then
      match (splitWs (semiDrop line)).get? 2 with
      | none => .error ()
      | some tok =>
        match pyFloat tok with
        | none => .error ()
        | some v => .ok { e with uniformValue := some (.scalar v) }
    else if t = chars "volVectorField" || t = chars "volTensorField" then
      match optTraverse pyFloat ((splitWs (semiDrop (parenDrop line))).drop 2) with
      | none => .error ()
      | some vs => .ok { e with uniformValue := some (.vector vs) }
    else .ok e

/-- The `if "nonuniform" in line` branch of `read_fields`: reads the count
from `lines[i+1]`, then the data block starting at `lines[i+3]`. -/
def nonuniformUpdate (ls : List Line) (i : ℕ) (e : FieldEntry) : Except Unit FieldEntry :=
  match ls.get? (i + 1) with
  | none => .error ()
  | some nline =>
    match pyInt nline with
    | none => .error ()
    | some n =>
      let e2 := { e with nCells := some n }
      match e2.ftype with
      | none => .error ()
      | some t =>
        if t = chars "volScalarField" then
          .ok { e2 with data := some (.scalar (gftScalar ls (i + 3) n)) }
        else if t = chars "volVectorField" || t = chars "volTensorField" then
          match vectorRows ls (i + 3) n with
          | none => .error ()
          | some rows => .ok { e2 with data := some (.vector rows) }
        else .ok e2

/-- One iteration of the `for i, line in enumerate(lines)` loop of
`FoamTimeSave.read_fields`. -/
def parseStep (ls : List Line) (e : FieldEntry) (i : ℕ) : Except Unit FieldEntry :=
  let line := ls.getD i []
  match classUpdate line e with
  | .error x => .error x
  | .ok e1 =>
    if hasSub (chars "internalField") line then
      if hasSub (chars "nonuniform") line then nonuniformUpdate ls i e1
      else if hasSub (chars "uniform") line then uniformUpdate line e1
      else .ok e1
    else .ok e1

/-- The whole enumeration loop over the given line indices. -/
def parseLoop (ls : List Line) : List ℕ → FieldEntry → Except Unit FieldEntry
  | [], e => .ok e
  | i :: rest, e =>
    match parseStep ls e i with
    | .ok e2 => parseLoop ls rest e2
    | .error x => .error x

/-- `FoamTimeSave.read_fields` restricted to a single file, given as its list
of lines: `Except.ok none` when the file lacks the FoamFile marker (the file
is skipped), `Except.ok (some entry)` for the dictionary built for a field
file, `Except.error ()` when the Python code would raise. -/
def read_field_file (ls : List Line) : Except Unit (Option FieldEntry) :=
  if ls.any (fun l => hasSub (chars "FoamFile") l) then
    match parseLoop ls (List.range ls.length) {} with
    | .ok e => .ok (some e)
    | .error x => .error x
  else .ok none

/-- Every character of the list is whitespace. -/
abbrev AllWs (w : Line) : Prop := ∀ c ∈ w, isWsChar c = true

/-- No character of the list is whitespace. -/
abbrev NoWs (t : Line) : Prop := ∀ c ∈ t, isWsChar c = false

theorem splitWsAux_ws (w l : Line) (hw : AllWs w) : splitWsAux (w ++ l) [] = splitWsAux l [] := by
  induction w with
  | nil => rfl
  | cons c w ih =>
    have hc : isWsChar c = true := hw c (List.mem_cons_self c w)
    have hw' : AllWs w := fun d hd => hw d (List.mem_cons_of_mem c hd)
    simp [splitWsAux, hc, ih hw']

theorem splitWsAux_tok (t : Line) (ht : NoWs t) :
    ∀ l acc, splitWsAux (t ++ l) acc = splitWsAux l (t.reverse ++ acc) := by
  induction t with
  | nil => intro l acc; simp
  | cons c t ih =>
    intro l acc
    have hc : isWsChar c = false := ht c (List.mem_cons_self c t)
    have ht' : NoWs t := fun d hd => ht d (List.mem_cons_of_mem c hd)
    have h1 : splitWsAux ((c :: t) ++ l) acc = splitWsAux (t ++ l) (c :: acc) := by
      simp [splitWsAux, hc]
    rw [h1, ih ht' l (c :: acc)]
    simp [List.append_assoc]

theorem splitWs_ws_append (w l : Line) (hw : AllWs w) : splitWs (w ++ l) = splitWs l :=
  splitWsAux_ws w l hw

theorem splitWs_tok_ws_append (t w l : Line) (ht0 : t ≠ []) (ht : NoWs t)
    (hw0 : w ≠ []) (hw : AllWs w) : splitWs (t ++ w ++ l) = t :: splitWs l := by
  cases w with
  | nil => exact absurd rfl hw0
  | cons c w =>
    have hc : isWsChar c = true := hw c (List.mem_cons_self c w)
    have hw' : AllWs w := fun d hd => hw d (List.mem_cons_of_mem c hd)
    have hrev : t.reverse.isEmpty = false := by
      cases hr : t.reverse with
      | nil => exact absurd (List.reverse_eq_nil_iff.mp hr) ht0
      | cons a as => rfl
    have h0 : splitWs (t ++ (c :: w) ++ l) = splitWsAux (t ++ ((c :: w) ++ l)) [] := by
      simp only [splitWs, List.append_assoc]
    rw [h0, splitWsAux_tok t ht ((c :: w) ++ l) []]
    have h1 : splitWsAux ((c :: w) ++ l) (t.reverse ++ []) = t :: splitWsAux (w ++ l) [] := by
      simp [splitWsAux, hc, hrev]
    rw [h1]
    have h2 : splitWsAux (w ++ l) [] = splitWs (w ++ l) := rfl
    rw [h2, splitWs_ws_append w l hw']

theorem splitWs_tok_end (t w : Line) (ht0 : t ≠ []) (ht : NoWs t) (hw : AllWs w) :
    splitWs (t ++ w) = [t] := by
  cases w with
  | nil =>
    have hrev : t.reverse.isEmpty = false := by
      cases hr : t.reverse with
      | nil => exact absurd (List.reverse_eq_nil_iff.mp hr) ht0
      | cons a as => rfl
    have h0 : splitWs (t ++ []) = splitWsAux (t ++ []) [] := rfl
    rw [h0, splitWsAux_tok t ht [] []]
    simp [splitWsAux, hrev]
  | cons c w =>
    have : splitWs (t ++ (c :: w) ++ []) = t :: splitWs [] :=
      splitWs_tok_ws_append t (c :: w) [] ht0 ht (by simp) hw
    simpa using this

theorem isPrefixOf_self_append (t r : Line) : t.isPrefixOf (t ++ r) = true := by
  induction t with
  | nil => cases r <;> simp [List.isPrefixOf]
  | cons c t ih => simp [List.isPrefixOf, ih]

theorem hasSub_here (t r : Line) : hasSub t (t ++ r) = true := by
  cases t with
  | nil => cases r with
    | nil => rfl
    | cons c r => simp [hasSub, List.isPrefixOf]
  | cons c t => simp [hasSub, isPrefixOf_self_append (c :: t) r]

theorem hasSub_append_left (pre t l : Line) (h : hasSub t l = true) :
    hasSub t (pre ++ l) = true := by
  induction pre with
  | nil => exact h
  | cons c pre ih => simp [hasSub, ih]

theorem hasSub_infix (pre t post : Line) : hasSub t (pre ++ (t ++ post)) = true :=
  hasSub_append_left pre t (t ++ post) (hasSub_here t post)

theorem semiDrop_allWs (w : Line) (hw : AllWs w) : semiDrop w = w := by
  refine List.filter_eq_self.mpr fun c hc => ?_
  have h1 : isWsChar c = true := hw c hc
  by_cases h : c = ';'
  · rw [h] at h1; exact absurd h1 (by decide)
  · simp [h]

theorem semiDrop_noSemi (t : Line) (h : ∀ c ∈ t, c ≠ ';') : semiDrop t = t := by
  refine List.filter_eq_self.mpr fun c hc => ?_
  simp [h c hc]

theorem semiDrop_append (a b : Line) : semiDrop (a ++ b) = semiDrop a ++ semiDrop b :=
  List.filter_append a b

theorem parseStep_neutral (ls : List Line) (e : FieldEntry) (i : ℕ)
    (h1 : hasSub (chars "class") (ls.getD i []) = false)
    (h2 : hasSub (chars "internalField") (ls.getD i []) = false) :
    parseStep ls e i = .ok e := by
  simp only [parseStep, classUpdate, h1, h2, Bool.false_eq_true, if_false]

theorem parseLoop_append (ls : List Line) (xs ys : List ℕ) (e : FieldEntry) :
    parseLoop ls (xs ++ ys) e = match parseLoop ls xs e with
      | .ok e2 => parseLoop ls ys e2
      | .error x => .error x := by
  induction xs generalizing e with
  | nil => rfl
  | cons i xs ih =>
    cases h : parseStep ls e i with
    | ok e2 =>
      have hl : parseLoop ls ((i :: xs) ++ ys) e = parseLoop ls (xs ++ ys) e2 := by
        simp [parseLoop, h]
      have hr : parseLoop ls (i :: xs) e = parseLoop ls xs e2 := by
        simp [parseLoop, h]
      rw [hl, hr, ih e2]
    | error x =>
      have hl : parseLoop ls ((i :: xs) ++ ys) e = .error x := by simp [parseLoop, h]
      have hr : parseLoop ls (i :: xs) e = .error x := by simp [parseLoop, h]
      rw [hl, hr]

theorem parseLoop_neutral (ls : List Line) (idxs : List ℕ) (e : FieldEntry)
    (h : ∀ i ∈ idxs, hasSub (chars "class") (ls.getD i []) = false ∧
          hasSub (chars "internalField") (ls.getD i []) = false) :
    parseLoop ls idxs e = .ok e := by
  induction idxs with
  | nil => rfl
  | cons i idxs ih =>
    have hi := h i (List.mem_cons_self i idxs)
    show (match parseStep ls e i with
          | .ok e2 => parseLoop ls idxs e2
          | .error x => .error x) = .ok e
    rw [parseStep_neutral ls e i hi.1 hi.2]
    exact ih fun j hj => h j (List.mem_cons_of_mem i hj)

theorem optTraverse_length {α β : Type} (f : α → Option β) :
    ∀ (l : List α) (r : List β), optTraverse f l = some r → r.length = l.length := by
  intro l
  induction l with
  | nil => intro r h; cases h; rfl
  | cons a as ih =>
    intro r h
    unfold optTraverse at h
    cases hf : f a with
    | none => rw [hf] at h; simp at h
    | some b =>
      rw [hf] at h
      cases hm : optTraverse f as with
      | none => rw [hm] at h; simp at h
      | some bs =>
        rw [hm] at h
        simp only [Option.some.injEq] at h
        simp [← h, ih bs hm]

theorem splitWs_tok_ws (tk w l : Line) (ht0 : tk ≠ []) (ht : NoWs tk)
    (hw0 : w ≠ []) (hw : AllWs w) : splitWs (tk ++ (w ++ l)) = tk :: splitWs l := by
  have h := splitWs_tok_ws_append tk w l ht0 ht hw0 hw
  rwa [List.append_assoc] at h

theorem semiDrop_scalar_uniform_line (w1 w2 w3 w4 t : Line)
    (hw1 : AllWs w1) (hw2 : AllWs w2) (hw3 : AllWs w3) (hw4 : AllWs w4)
    (hts : ∀ c ∈ t, c ≠ ';') :
    semiDrop (w1 ++ (chars "internalField" ++ (w2 ++ (chars "uniform" ++
        (w3 ++ (t ++ ([';'] ++ w4)))))))
      = w1 ++ (chars "internalField" ++ (w2 ++ (chars "uniform" ++ (w3 ++ (t ++ w4))))) := by
  simp only [semiDrop_append]
  rw [semiDrop_allWs w1 hw1, semiDrop_allWs w2 hw2, semiDrop_allWs w3 hw3,
    semiDrop_allWs w4 hw4, semiDrop_noSemi t hts]
  rw [show semiDrop (chars "internalField") = chars "internalField" from rfl,
    show semiDrop (chars "uniform") = chars "uniform" from rfl,
    show semiDrop [';'] = [] from rfl]
  simp

theorem splitWs_scalar_uniform_stripped (w1 w2 w3 w4 t : Line)
    (hw1 : AllWs w1) (hw2 : AllWs w2) (hw2n : w2 ≠ []) (hw3 : AllWs w3) (hw3n : w3 ≠ [])
    (hw4 : AllWs w4) (ht0 : t ≠ []) (htw : NoWs t) :
    splitWs (w1 ++ (chars "internalField" ++ (w2 ++ (chars "uniform" ++ (w3 ++ (t ++ w4))))))
      = [chars "internalField", chars "uniform", t] := by
  rw [splitWs_ws_append w1 _ hw1]
  rw [splitWs_tok_ws (chars "internalField") w2 _ (by decide) (by decide) hw2n hw2]
  rw [splitWs_tok_ws (chars "uniform") w3 _ (by decide) (by decide) hw3n hw3]
  rw [splitWs_tok_end t w4 ht0 htw hw4]

theorem dropWhile_semi_of_noSemi (l : Line) (h : ∀ c ∈ l, c ≠ ';') :
    l.dropWhile (fun x => x == ';') = l := by
  induction l with
  | nil => rfl
  | cons a l ih =>
    have ha : a ≠ ';' := h a (List.mem_cons_self a l)
    exact List.dropWhile_cons_of_neg (by simp [ha])

theorem stripSemi_append_semi (t : Line) (ht0 : t ≠ []) (hts : ∀ c ∈ t, c ≠ ';') :
    stripSemi (t ++ [';']) = t := by
  obtain ⟨c, r, rfl⟩ : ∃ c r, t = c :: r := by
    cases t with
    | nil => exact absurd rfl ht0
    | cons c r => exact ⟨c, r, rfl⟩
  have hc : c ≠ ';' := hts c (List.mem_cons_self c r)
  have hrev : ∀ x ∈ (c :: r).reverse, x ≠ ';' := fun x hx => hts x (List.mem_reverse.mp hx)
  unfold stripSemi
  rw [List.cons_append, List.dropWhile_cons_of_neg (by simp [hc])]
  rw [show (c :: (r ++ [';'])) = (c :: r) ++ [';'] by simp]
  rw [List.reverse_append]
  rw [show ([';'] : Line).reverse ++ (c :: r).reverse = ';' :: (c :: r).reverse from rfl]
  rw [List.dropWhile_cons_of_pos (by simp)]
  rw [dropWhile_semi_of_noSemi (c :: r).reverse hrev, List.reverse_reverse]

theorem splitWsAux_ws_only (w : Line) (hw : AllWs w) :
    ∀ acc, splitWsAux w acc = splitWsAux [] acc := by
  induction w with
  | nil => intro acc; rfl
  | cons c w ih =>
    intro acc
    have hc : isWsChar c = true := hw c (List.mem_cons_self c w)
    have hw2 : AllWs w := fun d hd => hw d (List.mem_cons_of_mem c hd)
    cases acc with
    | nil =>
      rw [show splitWsAux (c :: w) [] = splitWsAux w [] by simp [splitWsAux, hc]]
      rw [ih hw2 []]
    | cons a as =>
      rw [show splitWsAux (c :: w) (a :: as) = (a :: as).reverse :: splitWsAux w [] by
        simp [splitWsAux, hc]]
      rw [ih hw2 []]
      rfl

theorem splitWsAux_append_trailing (w : Line) (hw : AllWs w) :
    ∀ (l acc : Line), splitWsAux (l ++ w) acc = splitWsAux l acc := by
  intro l
  induction l with
  | nil => intro acc; exact splitWsAux_ws_only w hw acc
  | cons c l ih =>
    intro acc
    rcases Bool.eq_false_or_eq_true (isWsChar c) with hc | hc
    · cases acc with
      | nil =>
        rw [show ((c :: l) ++ w) = c :: (l ++ w) from rfl]
        rw [show splitWsAux (c :: (l ++ w)) [] = splitWsAux (l ++ w) [] by
          simp [splitWsAux, hc]]
        rw [show splitWsAux (c :: l) [] = splitWsAux l [] by simp [splitWsAux, hc]]
        exact ih []
      | cons a as =>
        rw [show ((c :: l) ++ w) = c :: (l ++ w) from rfl]
        rw [show splitWsAux (c :: (l ++ w)) (a :: as)
            = (a :: as).reverse :: splitWsAux (l ++ w) [] by simp [splitWsAux, hc]]
        rw [show splitWsAux (c :: l) (a :: as) = (a :: as).reverse :: splitWsAux l [] by
          simp [splitWsAux, hc]]
        rw [ih []]
    · rw [show ((c :: l) ++ w) = c :: (l ++ w) from rfl]
      rw [show splitWsAux (c :: (l ++ w)) acc = splitWsAux (l ++ w) (c :: acc) by
        simp [splitWsAux, hc]]
      rw [show splitWsAux (c :: l) acc = splitWsAux l (c :: acc) by simp [splitWsAux, hc]]
      exact ih (c :: acc)

theorem splitWs_append_trailing_ws (l w : Line) (hw : AllWs w) :
    splitWs (l ++ w) = splitWs l :=
  splitWsAux_append_trailing w hw l []

theorem parenDrop_append (a b : Line) : parenDrop (a ++ b) = parenDrop a ++ parenDrop b :=
  List.filter_append a b

theorem parenDrop_allWs (w : Line) (hw : AllWs w) : parenDrop w = w := by
  refine List.filter_eq_self.mpr fun c hc => ?_
  have h1 : isWsChar c = true := hw c hc
  by_cases h2 : c = ')'
  · rw [h2] at h1; exact absurd h1 (by decide)
  · by_cases h3 : c = '('
    · rw [h3] at h1; exact absurd h1 (by decide)
    · simp [h2, h3]

theorem parenDrop_noParen (l : Line) (h : ∀ c ∈ l, c ≠ '(' ∧ c ≠ ')') : parenDrop l = l := by
  refine List.filter_eq_self.mpr fun c hc => ?_
  have h2 := h c hc
  simp [h2.1, h2.2]

/-- C8: for every valid uniform field text, parsing yields the uniform value
per the declared kind.  For scalar kind the stored value is the parsed third
whitespace-separated token after removing the statement terminator,
independently of the surrounding whitespace runs w1..w4; for vector/tensor
kind (either declared class volVectorField or volTensorField) the stored
value is the parsed bracket-delimited float tuple following the keyword, for
an arbitrary tuple interior and arbitrary surrounding whitespace runs u1..u4
— the scenario `internalField uniform (1 0 0);` parsing to the tuple
[1.0, 0.0, 0.0] is the witness instance. -/
theorem c8_uniform_parsing
    (w1 w2 w3 w4 t : Line) (v : ℚ) (line : Line)
    (u1 u2 u3 u4 kt interior : Line) (toks : List Line) (vs : List ℚ) (vline : Line)
    (hw1 : AllWs w1) (hw2 : AllWs w2) (hw2n : w2 ≠ []) (hw3 : AllWs w3) (hw3n : w3 ≠ [])
    (hw4 : AllWs w4)
    (ht0 : t ≠ []) (htw : NoWs t) (hts : ∀ c ∈ t, c ≠ ';')
    (hv : pyFloat t = some v)
    (hline : line = w1 ++ (chars "internalField" ++ (w2 ++ (chars "uniform" ++
        (w3 ++ (t ++ ([';'] ++ w4)))))))
    (hcl : hasSub (chars "class") line = false)
    (hnu : hasSub (chars "nonuniform") line = false)
    (hu1 : AllWs u1) (hu2 : AllWs u2) (hu2n : u2 ≠ []) (hu3 : AllWs u3) (hu3n : u3 ≠ [])
    (hu4 : AllWs u4)
    (hkt : kt = chars "volVectorField" ∨ kt = chars "volTensorField")
    (hintc : ∀ c ∈ interior, c ≠ '(' ∧ c ≠ ')' ∧ c ≠ ';')
    (hsplitInt : splitWs interior = toks)
    (htoks : optTraverse pyFloat toks = some vs)
    (hvline : vline = u1 ++ (chars "internalField" ++ (u2 ++ (chars "uniform" ++
        (u3 ++ (['('] ++ (interior ++ ([')'] ++ ([';'] ++ u4)))))))))
    (hvcl : hasSub (chars "class") vline = false)
    (hvnu : hasSub (chars "nonuniform") vline = false) :
    read_field_file [chars "FoamFile", chars "class volScalarField;", line]
      = .ok (some { ftype := some (chars "volScalarField"), uniformValue := some (.scalar v) })
    ∧ read_field_file [chars "FoamFile", chars "class" ++ ([' '] ++ (kt ++ [';'])), vline]
      = .ok (some { ftype := some kt, uniformValue := some (.vector vs) }) := by
  constructor
  · set ls : List Line := [chars "FoamFile", chars "class volScalarField;", line] with hls
    have hIF : hasSub (chars "internalField") line = true := by
      rw [hline]
      exact hasSub_infix w1 (chars "internalField")
        (w2 ++ (chars "uniform" ++ (w3 ++ (t ++ ([';'] ++ w4)))))
    have hUF : hasSub (chars "uniform") line = true := by
      rw [hline]
      exact hasSub_append_left w1 _ _ (hasSub_append_left (chars "internalField") _ _
        (hasSub_append_left w2 _ _ (hasSub_here (chars "uniform") _)))
    have e1def : FieldEntry := { ftype := some (chars "volScalarField") }
    have s0 : parseStep ls ({} : FieldEntry) 0 = .ok {} := rfl
    have s1 : parseStep ls ({} : FieldEntry) 1
        = .ok { ftype := some (chars "volScalarField") } := rfl
    have s2 : parseStep ls { ftype := some (chars "volScalarField") } 2
        = .ok { ftype := some (chars "volScalarField"), uniformValue := some (.scalar v) } := by
      have hget : ls.getD 2 [] = line := rfl
      simp only [parseStep, hget, classUpdate, hcl, Bool.false_eq_true, if_false, hIF, hUF, hnu,
        if_true, uniformUpdate]
      rw [hline, semiDrop_scalar_uniform_line w1 w2 w3 w4 t hw1 hw2 hw3 hw4 hts,
        splitWs_scalar_uniform_stripped w1 w2 w3 w4 t hw1 hw2 hw2n hw3 hw3n hw4 ht0 htw]
      simp only [List.get?]
      rw [hv]
    have hloop : parseLoop ls (List.range ls.length) {} = .ok
        { ftype := some (chars "volScalarField"), uniformValue := some (.scalar v) } := by
      have hrange : List.range ls.length = [0, 1, 2] := rfl
      rw [hrange]
      simp only [parseLoop, s0, s1, s2]
    have hany : ls.any (fun l => hasSub (chars "FoamFile") l) = true := by
      simp only [hls, List.any_cons]
      rw [show hasSub (chars "FoamFile") (chars "FoamFile") = true from rfl]
      simp
    simp only [read_field_file, hany, if_true, hloop]
  · have hkt0 : kt ≠ [] := by rcases hkt with rfl | rfl <;> decide
    have hkts : ∀ c ∈ kt, c ≠ ';' := by rcases hkt with rfl | rfl <;> decide
    have hktw : NoWs kt := by rcases hkt with rfl | rfl <;> decide
    have hkIF : hasSub (chars "internalField")
        (chars "class" ++ ([' '] ++ (kt ++ [';']))) = false := by
      rcases hkt with rfl | rfl <;> decide
    have hkneScalar : ¬(kt = chars "volScalarField") := by
      rcases hkt with rfl | rfl <;> decide
    have hkcond : (decide (kt = chars "volVectorField")
        || decide (kt = chars "volTensorField")) = true := by
      rcases hkt with rfl | rfl <;> decide
    have hclass2 : hasSub (chars "class") (chars "class" ++ ([' '] ++ (kt ++ [';']))) = true :=
      hasSub_here (chars "class") _
    have hsplitCls : splitWs (chars "class" ++ ([' '] ++ (kt ++ [';'])))
        = [chars "class", kt ++ [';']] := by
      rw [splitWs_tok_ws (chars "class") [' '] (kt ++ [';']) (by decide) (by decide)
        (by decide) (by decide)]
      have h : splitWs (kt ++ [';'] ++ []) = [kt ++ [';']] := by
        refine splitWs_tok_end (kt ++ [';']) [] ?_ ?_ (by decide)
        · simp
        · intro c hc
          rcases List.mem_append.mp hc with h | h
          · exact hktw c h
          · simp at h; rw [h]; decide
      simpa using h
    have hcu : classUpdate (chars "class" ++ ([' '] ++ (kt ++ [';']))) ({} : FieldEntry)
        = .ok { ftype := some kt } := by
      unfold classUpdate
      rw [hclass2, hsplitCls]
      simp only [List.get?, stripSemi_append_semi kt hkt0 hkts]
      simp
    have hIF2 : hasSub (chars "internalField") vline = true := by
      rw [hvline]
      exact hasSub_infix u1 (chars "internalField")
        (u2 ++ (chars "uniform" ++ (u3 ++ (['('] ++ (interior ++ ([')'] ++ ([';'] ++ u4)))))))
    have hUF2 : hasSub (chars "uniform") vline = true := by
      rw [hvline]
      exact hasSub_append_left u1 _ _ (hasSub_append_left (chars "internalField") _ _
        (hasSub_append_left u2 _ _ (hasSub_here (chars "uniform") _)))
    have hclean : semiDrop (parenDrop vline)
        = u1 ++ (chars "internalField" ++ (u2 ++ (chars "uniform" ++
            (u3 ++ (interior ++ u4))))) := by
      rw [hvline]
      simp only [parenDrop_append, semiDrop_append]
      rw [parenDrop_allWs u1 hu1, parenDrop_allWs u2 hu2, parenDrop_allWs u3 hu3,
        parenDrop_allWs u4 hu4,
        parenDrop_noParen interior (fun c hc => ⟨(hintc c hc).1, (hintc c hc).2.1⟩)]
      rw [show parenDrop (chars "internalField") = chars "internalField" from rfl,
        show parenDrop (chars "uniform") = chars "uniform" from rfl,
        show parenDrop ['('] = [] from rfl,
        show parenDrop [')'] = [] from rfl,
        show parenDrop [';'] = [';'] from rfl]
      rw [semiDrop_allWs u1 hu1, semiDrop_allWs u2 hu2, semiDrop_allWs u3 hu3,
        semiDrop_allWs u4 hu4,
        semiDrop_noSemi interior (fun c hc => (hintc c hc).2.2)]
      rw [show semiDrop (chars "internalField") = chars "internalField" from rfl,
        show semiDrop (chars "uniform") = chars "uniform" from rfl,
        show semiDrop [';'] = [] from rfl,
        show semiDrop ([] : Line) = [] from rfl]
      simp
    have hsplit2 : splitWs (semiDrop (parenDrop vline))
        = chars "internalField" :: chars "uniform" :: toks := by
      rw [hclean]
      rw [splitWs_ws_append u1 _ hu1]
      rw [splitWs_tok_ws (chars "internalField") u2 _ (by decide) (by decide) hu2n hu2]
      rw [splitWs_tok_ws (chars "uniform") u3 _ (by decide) (by decide) hu3n hu3]
      rw [splitWs_append_trailing_ws interior u4 hu4, hsplitInt]
    have huu : uniformUpdate vline { ftype := some kt }
        = .ok { ftype := some kt, uniformValue := some (.vector vs) } := by
      unfold uniformUpdate
      dsimp only
      rw [if_neg hkneScalar, if_pos hkcond, hsplit2]
      rw [show (chars "internalField" :: chars "uniform" :: toks).drop 2 = toks from rfl]
      rw [htoks]
    set ls2 : List Line := [chars "FoamFile", chars "class" ++ ([' '] ++ (kt ++ [';'])),
      vline] with hls2
    have s0 : parseStep ls2 ({} : FieldEntry) 0 = .ok {} := rfl
    have s1 : parseStep ls2 ({} : FieldEntry) 1 = .ok { ftype := some kt } := by
      simp only [parseStep]
      rw [show ls2.getD 1 [] = chars "class" ++ ([' '] ++ (kt ++ [';'])) from rfl, hcu]
      rw [hkIF]
      simp
    have s2 : parseStep ls2 { ftype := some kt } 2
        = .ok { ftype := some kt, uniformValue := some (.vector vs) } := by
      simp only [parseStep]
      rw [show ls2.getD 2 [] = vline from rfl]
      have hcu2 : classUpdate vline { ftype := some kt } = .ok { ftype := some kt } := by
        unfold classUpdate
        rw [hvcl]
        simp
      rw [hcu2, hIF2, hvnu, hUF2]
      simp [huu]
    have hloop : parseLoop ls2 (List.range ls2.length) {}
        = .ok { ftype := some kt, uniformValue := some (.vector vs) } := by
      have hrange : List.range ls2.length = [0, 1, 2] := rfl
      rw [hrange]
      simp only [parseLoop, s0, s1, s2]
    have hany : ls2.any (fun l => hasSub (chars "FoamFile") l) = true := by
      rw [hls2, List.any_cons, show hasSub (chars "FoamFile") (chars "FoamFile") = true from rfl]
      simp
    simp only [read_field_file, hany, if_true, hloop]

/-- Witness for C8 at concrete whitespace, token and tuple choices. -/
theorem c8_witness :
    read_field_file [chars "FoamFile", chars "class volScalarField;",
        chars "internalField uniform 0.5;"]
      = .ok (some { ftype := some (chars "volScalarField"),
                    uniformValue := some (.scalar (mkRat 1 2)) })
    ∧ read_field_file [chars "FoamFile",
        chars "class" ++ ([' '] ++ (chars "volVectorField" ++ [';'])),
        chars "internalField uniform (1 0 0);"]
      = .ok (some { ftype := some (chars "volVectorField"),
                    uniformValue := some (.vector [1, 0, 0]) }) :=
  c8_uniform_parsing [] [' '] [' '] [] (chars "0.5") (mkRat 1 2)
    (chars "internalField uniform 0.5;")
    [] [' '] [' '] [] (chars "volVectorField") (chars "1 0 0")
    [chars "1", chars "0", chars "0"] [1, 0, 0] (chars "internalField uniform (1 0 0);")
    (by decide) (by decide) (by decide) (by decide) (by decide) (by decide)
    (by decide) (by decide) (by decide) (by decide) (by decide) (by decide) (by decide)
    (by decide) (by decide) (by decide) (by decide) (by decide) (by decide)
    (Or.inl rfl) (by decide) (by decide) (by decide) (by decide) (by decide) (by decide)

/-- C5 (amended): a field file whose class token is none of the three
supported kinds is still entered into the fields dictionary as a partial
entry carrying only the class token — it is neither skipped (`None`) nor
given a distinct unsupported marker. -/
theorem c5_partial_entry (t : Line)
    (ht0 : t ≠ []) (htw : NoWs t) (hts : ∀ c ∈ t, c ≠ ';')
    (hnsc : t ≠ chars "volScalarField") (hnv : t ≠ chars "volVectorField")
    (hnt : t ≠ chars "volTensorField")
    (hni : hasSub (chars "internalField") (chars "class" ++ ([' '] ++ (t ++ [';']))) = false) :
    read_field_file [chars "FoamFile", chars "class" ++ ([' '] ++ (t ++ [';'])),
        chars "internalField uniform 0;"]
      = .ok (some { ftype := some t })
    ∧ (.ok (some { ftype := some t }) : Except Unit (Option FieldEntry)) ≠ .ok none := by
  refine ⟨?_, by simp⟩
  have hclass : hasSub (chars "class") (chars "class" ++ ([' '] ++ (t ++ [';']))) = true :=
    hasSub_here (chars "class") _
  have hsplit : splitWs (chars "class" ++ ([' '] ++ (t ++ [';']))) = [chars "class", t ++ [';']] := by
    rw [splitWs_tok_ws (chars "class") [' '] (t ++ [';']) (by decide) (by decide)
      (by decide) (by decide)]
    have h : splitWs (t ++ [';'] ++ []) = [t ++ [';']] := by
      refine splitWs_tok_end (t ++ [';']) [] ?_ ?_ (by decide)
      · simp
      · intro c hc
        rcases List.mem_append.mp hc with h | h
        · exact htw c h
        · simp at h; rw [h]; decide
    simpa using h
  have hcu : classUpdate (chars "class" ++ ([' '] ++ (t ++ [';']))) ({} : FieldEntry)
      = .ok { ftype := some t } := by
    unfold classUpdate
    rw [hclass, hsplit]
    simp only [List.get?, stripSemi_append_semi t ht0 hts]
    simp
  have hcu2 : classUpdate (chars "internalField uniform 0;") { ftype := some t }
      = .ok { ftype := some t } := by
    unfold classUpdate
    rw [show hasSub (chars "class") (chars "internalField uniform 0;") = false from rfl]
    simp
  have huu : uniformUpdate (chars "internalField uniform 0;") { ftype := some t }
      = .ok { ftype := some t } := by
    unfold uniformUpdate
    simp [hnsc, hnv, hnt]
  set ls : List Line := [chars "FoamFile", chars "class" ++ ([' '] ++ (t ++ [';'])),
    chars "internalField uniform 0;"] with hls
  have s0 : parseStep ls ({} : FieldEntry) 0 = .ok {} := rfl
  have s1 : parseStep ls ({} : FieldEntry) 1 = .ok { ftype := some t } := by
    simp only [parseStep]
    rw [show ls.getD 1 [] = chars "class" ++ ([' '] ++ (t ++ [';'])) from rfl, hcu]
    rw [hni]
    simp
  have s2 : parseStep ls { ftype := some t } 2 = .ok { ftype := some t } := by
    simp only [parseStep]
    rw [show ls.getD 2 [] = chars "internalField uniform 0;" from rfl, hcu2]
    rw [show hasSub (chars "internalField") (chars "internalField uniform 0;") = true from rfl,
      show hasSub (chars "nonuniform") (chars "internalField uniform 0;") = false from rfl,
      show hasSub (chars "uniform") (chars "internalField uniform 0;") = true from rfl]
    simp [huu]
  have hloop : parseLoop ls (List.range ls.length) {} = .ok { ftype := some t } := by
    have hrange : List.range ls.length = [0, 1, 2] := rfl
    rw [hrange]
    simp only [parseLoop, s0, s1, s2]
  have hany : ls.any (fun l => hasSub (chars "FoamFile") l) = true := by
    rw [hls, List.any_cons, show hasSub (chars "FoamFile") (chars "FoamFile") = true from rfl]
    simp
  simp only [read_field_file, hany, if_true, hloop]

/-- C5 counterexample: a file with class token `surfaceScalarField` is not
skipped (`None`) and gets no unsupported-kind marker; the parser records a
partial entry holding only the class token. -/
theorem c5_counterexample :
    read_field_file [chars "FoamFile", chars "class surfaceScalarField;",
        chars "internalField uniform 0;"]
      = .ok (some { ftype := some (chars "surfaceScalarField") })
    ∧ read_field_file [chars "FoamFile", chars "class surfaceScalarField;",
        chars "internalField uniform 0;"] ≠ .ok none := by
  constructor
  · decide
  · decide

/-- Witness for C5 at the concrete token `surfaceVectorField`. -/
theorem c5_witness :
    read_field_file [chars "FoamFile", chars "class" ++ ([' '] ++
        (chars "surfaceVectorField" ++ [';'])), chars "internalField uniform 0;"]
      = .ok (some { ftype := some (chars "surfaceVectorField") })
    ∧ (.ok (some { ftype := some (chars "surfaceVectorField") })
        : Except Unit (Option FieldEntry)) ≠ .ok none :=
  c5_partial_entry (chars "surfaceVectorField") (by decide) (by decide) (by decide)
    (by decide) (by decide) (by decide) (by decide)

/-- C1 (amended): a nonuniform vector/tensor block declaring count n whose
data section holds at least n parseable rows parses successfully to exactly
the first n rows — extra rows are silently ignored rather than raising any
error; no CellCountMismatch check exists in `read_fields`. -/
theorem c1_extra_rows_truncated (n : ℕ) (nline : Line) (rows tl : List Line)
    (parsed : List (List ℚ))
    (hn : pyInt nline = some (n : ℤ))
    (hnl1 : hasSub (chars "class") nline = false)
    (hnl2 : hasSub (chars "internalField") nline = false)
    (hrt : ∀ r ∈ rows ++ tl, hasSub (chars "class") r = false ∧
        hasSub (chars "internalField") r = false)
    (hlen : n ≤ rows.length)
    (hparse : optTraverse (fun l => optTraverse pyFloat (splitWs l))
        ((rows.take n).map parenDrop) = some parsed) :
    read_field_file ([chars "FoamFile", chars "class volVectorField;",
        chars "internalField nonuniform List<vector>", nline, chars "("] ++ (rows ++ tl))
      = .ok (some { ftype := some (chars "volVectorField"), nCells := some (n : ℤ),
                    data := some (.vector parsed) })
    ∧ parsed.length = n := by
  have hplen : parsed.length = n := by
    have h1 := optTraverse_length _ _ _ hparse
    rw [List.length_map, List.length_take] at h1
    omega
  refine ⟨?_, hplen⟩
  set ls : List Line := [chars "FoamFile", chars "class volVectorField;",
    chars "internalField nonuniform List<vector>", nline, chars "("] ++ (rows ++ tl) with hls
  have hvr : vectorRows ls 5 (n : ℤ) = some parsed := by
    unfold vectorRows
    rw [show ls.drop 5 = rows ++ tl from rfl]
    rw [show ((n : ℤ)).toNat = n by simp]
    rw [List.take_append_of_le_length hlen]
    exact hparse
  have hnu : nonuniformUpdate ls 2 { ftype := some (chars "volVectorField") }
      = .ok { ftype := some (chars "volVectorField"), nCells := some (n : ℤ),
              data := some (.vector parsed) } := by
    unfold nonuniformUpdate
    rw [show ls.get? 3 = some nline from rfl]
    simp only [hn]
    rw [if_neg (show ¬ (chars "volVectorField" = chars "volScalarField") by decide)]
    rw [if_pos (show (decide True
        || decide (chars "volVectorField" = chars "volTensorField")) = true by decide)]
    rw [show (2 : ℕ) + 3 = 5 from rfl, hvr]
  have hcu3 : classUpdate (chars "internalField nonuniform List<vector>")
      { ftype := some (chars "volVectorField") }
      = .ok { ftype := some (chars "volVectorField") } := by
    unfold classUpdate
    rw [show hasSub (chars "class") (chars "internalField nonuniform List<vector>")
      = false from rfl]
    simp
  have s0 : parseStep ls ({} : FieldEntry) 0 = .ok {} := rfl
  have s1 : parseStep ls ({} : FieldEntry) 1
      = .ok { ftype := some (chars "volVectorField") } := rfl
  have s2 : parseStep ls { ftype := some (chars "volVectorField") } 2
      = .ok { ftype := some (chars "volVectorField"), nCells := some (n : ℤ),
              data := some (.vector parsed) } := by
    simp only [parseStep]
    rw [show ls.getD 2 [] = chars "internalField nonuniform List<vector>" from rfl, hcu3]
    rw [show hasSub (chars "internalField") (chars "internalField nonuniform List<vector>")
        = true from rfl,
      show hasSub (chars "nonuniform") (chars "internalField nonuniform List<vector>")
        = true from rfl]
    simp [hnu]
  have s3 : parseStep ls { ftype := some (chars "volVectorField"), nCells := some (n : ℤ), data := some (.vector parsed) } 3
      = .ok { ftype := some (chars "volVectorField"), nCells := some (n : ℤ),
              data := some (.vector parsed) } := by
    refine parseStep_neutral ls _ 3 ?_ ?_
    · rw [show ls.getD 3 [] = nline from rfl]; exact hnl1
    · rw [show ls.getD 3 [] = nline from rfl]; exact hnl2
  have s4 : parseStep ls { ftype := some (chars "volVectorField"), nCells := some (n : ℤ), data := some (.vector parsed) } 4
      = .ok { ftype := some (chars "volVectorField"), nCells := some (n : ℤ),
              data := some (.vector parsed) } := rfl
  have hsteps : parseLoop ls [0, 1, 2, 3, 4] {}
      = .ok { ftype := some (chars "volVectorField"), nCells := some (n : ℤ),
              data := some (.vector parsed) } := by
    simp only [parseLoop, s0, s1, s2, s3, s4]
  have htail : parseLoop ls (List.range' 5 ((rows ++ tl).length))
      { ftype := some (chars "volVectorField"), nCells := some (n : ℤ),
        data := some (.vector parsed) }
      = .ok { ftype := some (chars "volVectorField"), nCells := some (n : ℤ),
              data := some (.vector parsed) } := by
    refine parseLoop_neutral ls _ _ ?_
    intro i hi
    have hi5 : 5 ≤ i := by
      rw [List.mem_range'] at hi
      obtain ⟨j, hj, rfl⟩ := hi
      omega
    have hgd : ls.getD i [] = (rows ++ tl).getD (i - 5) [] := by
      rw [hls]
      exact List.getD_append_right _ _ _ _ (by simpa using hi5)
    by_cases hj : i - 5 < (rows ++ tl).length
    · have hm : (rows ++ tl).getD (i - 5) [] ∈ rows ++ tl := by
        rw [List.getD_eq_getElem _ _ hj]
        exact List.getElem_mem hj
      rw [hgd]
      exact hrt _ hm
    · rw [hgd, List.getD_eq_default _ _ (le_of_not_lt hj)]
      exact ⟨rfl, rfl⟩
  have hrange : List.range ls.length
      = [0, 1, 2, 3, 4] ++ List.range' 5 ((rows ++ tl).length) := by
    rw [hls, List.length_append]
    rw [show ([chars "FoamFile", chars "class volVectorField;",
      chars "internalField nonuniform List<vector>", nline, chars "("].length) = 5 from rfl]
    rw [List.range_eq_range']
    rw [show ([0, 1, 2, 3, 4] : List ℕ) = List.range' 0 5 from rfl]
    rw [show (5 : ℕ) + (rows ++ tl).length = (rows ++ tl).length + 5 from Nat.add_comm 5 _]
    rw [← List.range'_append 0 5 ((rows ++ tl).length) 1]
  have hloop : parseLoop ls (List.range ls.length) {}
      = .ok { ftype := some (chars "volVectorField"), nCells := some (n : ℤ),
              data := some (.vector parsed) } := by
    rw [hrange, parseLoop_append, hsteps]
    exact htail
  have hany : ls.any (fun l => hasSub (chars "FoamFile") l) = true := by
    rw [hls, List.any_append, List.any_cons,
      show hasSub (chars "FoamFile") (chars "FoamFile") = true from rfl]
    simp
  simp only [read_field_file, hany, if_true, hloop]

/-- C1 counterexample: a nonuniform vector block declaring n = 2 whose data
section holds 3 rows parses successfully to the first 2 rows — no
CellCountMismatch (or any other) failure occurs, contradicting the claim. -/
theorem c1_counterexample :
    read_field_file
        [chars "FoamFile", chars "class volVectorField;",
         chars "internalField nonuniform List<vector>", chars "2", chars "(",
         chars "(1 0 0)", chars "(2 0 0)", chars "(3 0 0)", chars ")", chars ";"]
      = .ok (some { ftype := some (chars "volVectorField"), nCells := some 2,
                    data := some (.vector [[1, 0, 0], [2, 0, 0]]) }) := by
  decide

/-- Witness for C1 with n = 2 and exactly two data rows before the closing
delimiter lines. -/
theorem c1_witness :
    read_field_file ([chars "FoamFile", chars "class volVectorField;",
        chars "internalField nonuniform List<vector>", chars "2", chars "("] ++
        ([chars "(1 0 0)", chars "(2 5 0)"] ++ [chars ")", chars ";"]))
      = .ok (some { ftype := some (chars "volVectorField"), nCells := some (2 : ℤ),
                    data := some (.vector [[1, 0, 0], [2, 5, 0]]) })
    ∧ ([[1, 0, 0], [2, 5, 0]] : List (List ℚ)).length = 2 :=
  c1_extra_rows_truncated 2 (chars "2") [chars "(1 0 0)", chars "(2 5 0)"]
    [chars ")", chars ";"] [[1, 0, 0], [2, 5, 0]]
    (by decide) (by decide) (by decide) (by decide) (by decide) (by decide)

/-- The `np.argwhere((Cx >= xmin) & ... ).flatten()` index selection of
`MLDataSet.geometric_downsample`: ascending indices of the cells inside the
box.  numpy's elementwise `&` requires the four arrays to share one length; a
mismatch raises, modelled as `none`. -/
def geometric_downsample_idx (Cx Cy Cz d : List ℚ)
    (wallmin wallmax xmin xmax ymin ymax zmin zmax : ℚ) : Option (List ℕ) :=
  if Cy.length = Cx.length ∧ Cz.length = Cx.length ∧ d.length = Cx.length then
    some ((List.range Cx.length).filter (fun i =>
      decide (Cx.getD i 0 ≥ xmin) && decide (Cx.getD i 0 ≤ xmax) &&
      decide (Cy.getD i 0 ≥ ymin) && decide (Cy.getD i 0 ≤ ymax) &&
      decide (Cz.getD i 0 ≥ zmin) && decide (Cz.getD i 0 ≤ zmax) &&
      decide (d.getD i 0 ≥ wallmin) && decide (d.getD i 0 ≤ wallmax)))
  else none

/-- One entry of `self.geo_ds`. -/
structure GeoEntry where
  data : FieldData
  nCells : ℕ
  ftype : Line
deriving DecidableEq

/-- numpy fancy indexing `data[idx]`. -/
def gatherData : FieldData → List ℕ → FieldData
  | .scalar vals, idx => .scalar (idx.map (fun i => vals.getD i none))
  | .vector rows, idx => .vector (idx.map (fun i => rows.getD i []))

/-- The `for name in names` loop of `geometric_downsample` building `geo_ds`:
a name absent from the fields dictionary (or a field without per-cell data or
type) raises KeyError at `self.FoamData.fields[name][...]`.  The preceding
`Warning(...)` call merely constructs a Warning object — it neither raises
nor skips the name, so it does not prevent the failure. -/
def buildGeoDs (fields : List (String × FieldEntry)) (idx : List ℕ) :
    List String → List (String × GeoEntry) → Except String (List (String × GeoEntry))
  | [], acc => .ok acc
  | name :: rest, acc =>
    match fields.lookup name with
    | none => .error name
    | some fe =>
      match fe.data with
      | none => .error name
      | some fd =>
        match fe.ftype with
        | none => .error name
        | some t =>
          buildGeoDs fields idx rest (acc ++ [(name, ⟨gatherData fd idx, idx.length, t⟩)])

/-- `MLDataSet.geometric_downsample` subset construction over a names list. -/
def geometric_downsample_build (fields : List (String × FieldEntry)) (idx : List ℕ)
    (names : List String) : Except String (List (String × GeoEntry)) :=
  buildGeoDs fields idx names []

theorem buildGeoDs_error_of_missing (fields : List (String × FieldEntry)) (idx : List ℕ) :
    ∀ (names : List String) (acc : List (String × GeoEntry)),
      (∃ nm ∈ names, fields.lookup nm = none) →
      ∃ msg, buildGeoDs fields idx names acc = .error msg := by
  intro names
  induction names with
  | nil =>
    intro acc h
    rcases h with ⟨nm, hmem, _⟩
    cases hmem
  | cons a rest ih =>
    intro acc h
    unfold buildGeoDs
    cases hl : fields.lookup a with
    | none => exact ⟨a, rfl⟩
    | some fe =>
      dsimp only
      rcases h with ⟨nm, hmem, habs⟩
      rcases List.mem_cons.mp hmem with rfl | hmem2
      · rw [hl] at habs; cases habs
      · cases hd : fe.data with
        | none => exact ⟨a, rfl⟩
        | some fd =>
          dsimp only
          cases ht : fe.ftype with
          | none => exact ⟨a, rfl⟩
          | some t =>
            dsimp only
            exact ih _ ⟨nm, hmem2, habs⟩

/-- C10: a `geometric_downsample` call whose explicit names list holds a name
absent from the snapshot fails with an exception while building the subset —
it does not skip the unknown name and continue (the Warning does not prevent
the failure). -/
theorem c10_unknown_name_fails (fields : List (String × FieldEntry)) (idx : List ℕ)
    (names : List String) (nm : String)
    (hmem : nm ∈ names) (habs : fields.lookup nm = none) :
    ∃ msg, geometric_downsample_build fields idx names = .error msg :=
  buildGeoDs_error_of_missing fields idx names [] ⟨nm, hmem, habs⟩

/-- Witness for C10: a two-name list whose second name is unknown. -/
theorem c10_witness :
    ∃ msg, geometric_downsample_build
        [("Cx", { ftype := some (chars "volScalarField"), nCells := some 1,
                  data := some (.scalar [some 0]) })] [0] ["Cx", "bogus"]
      = .error msg :=
  c10_unknown_name_fails
    [("Cx", { ftype := some (chars "volScalarField"), nCells := some 1,
              data := some (.scalar [some 0]) })] [0] ["Cx", "bogus"] "bogus"
    (by decide) (by decide)

/-- C9: geometricSubset selects exactly the cell indices satisfying all six
inclusive bound predicates simultaneously, as a stable subsequence of the
original cell ordering; with bounds wide enough to include every cell, all N
indices are returned in original order. -/
theorem c9_geometric_subset (Cx Cy Cz d : List ℚ)
    (wallmin wallmax xmin xmax ymin ymax zmin zmax : ℚ)
    (h1 : Cy.length = Cx.length) (h2 : Cz.length = Cx.length) (h3 : d.length = Cx.length) :
    ∃ idx, geometric_downsample_idx Cx Cy Cz d wallmin wallmax xmin xmax ymin ymax zmin zmax
        = some idx
      ∧ (∀ i, i ∈ idx ↔ i < Cx.length ∧
          (xmin ≤ Cx.getD i 0 ∧ Cx.getD i 0 ≤ xmax ∧
           ymin ≤ Cy.getD i 0 ∧ Cy.getD i 0 ≤ ymax ∧
           zmin ≤ Cz.getD i 0 ∧ Cz.getD i 0 ≤ zmax ∧
           wallmin ≤ d.getD i 0 ∧ d.getD i 0 ≤ wallmax))
      ∧ List.Sublist idx (List.range Cx.length)
      ∧ ((∀ i, i < Cx.length →
            xmin ≤ Cx.getD i 0 ∧ Cx.getD i 0 ≤ xmax ∧
            ymin ≤ Cy.getD i 0 ∧ Cy.getD i 0 ≤ ymax ∧
            zmin ≤ Cz.getD i 0 ∧ Cz.getD i 0 ≤ zmax ∧
            wallmin ≤ d.getD i 0 ∧ d.getD i 0 ≤ wallmax) →
          idx = List.range Cx.length) := by
  refine ⟨(List.range Cx.length).filter (fun i =>
      decide (Cx.getD i 0 ≥ xmin) && decide (Cx.getD i 0 ≤ xmax) &&
      decide (Cy.getD i 0 ≥ ymin) && decide (Cy.getD i 0 ≤ ymax) &&
      decide (Cz.getD i 0 ≥ zmin) && decide (Cz.getD i 0 ≤ zmax) &&
      decide (d.getD i 0 ≥ wallmin) && decide (d.getD i 0 ≤ wallmax)), ?_, ?_, ?_, ?_⟩
  · unfold geometric_downsample_idx
    rw [if_pos ⟨h1, h2, h3⟩]
  · intro i
    simp only [List.mem_filter, List.mem_range, Bool.and_eq_true, decide_eq_true_eq, ge_iff_le]
    tauto
  · exact List.filter_sublist _
  · intro hall
    refine List.filter_eq_self.mpr ?_
    intro i hi
    have hilt : i < Cx.length := List.mem_range.mp hi
    have h := hall i hilt
    simp only [Bool.and_eq_true, decide_eq_true_eq, ge_iff_le]
    tauto

/-- Witness for C9 on a two-cell snapshot with all-inclusive bounds. -/
theorem c9_witness :
    ∃ idx, geometric_downsample_idx [0, 1] [0, 1] [0, 0] [1, 2] 0 10 0 10 0 10 0 10
        = some idx
      ∧ (∀ i, i ∈ idx ↔ i < ([0, 1] : List ℚ).length ∧
          ((0 : ℚ) ≤ ([0, 1] : List ℚ).getD i 0 ∧ ([0, 1] : List ℚ).getD i 0 ≤ 10 ∧
           (0 : ℚ) ≤ ([0, 1] : List ℚ).getD i 0 ∧ ([0, 1] : List ℚ).getD i 0 ≤ 10 ∧
           (0 : ℚ) ≤ ([0, 0] : List ℚ).getD i 0 ∧ ([0, 0] : List ℚ).getD i 0 ≤ 10 ∧
           (0 : ℚ) ≤ ([1, 2] : List ℚ).getD i 0 ∧ ([1, 2] : List ℚ).getD i 0 ≤ 10))
      ∧ List.Sublist idx (List.range ([0, 1] : List ℚ).length)
      ∧ ((∀ i, i < ([0, 1] : List ℚ).length →
            (0 : ℚ) ≤ ([0, 1] : List ℚ).getD i 0 ∧ ([0, 1] : List ℚ).getD i 0 ≤ 10 ∧
            (0 : ℚ) ≤ ([0, 1] : List ℚ).getD i 0 ∧ ([0, 1] : List ℚ).getD i 0 ≤ 10 ∧
            (0 : ℚ) ≤ ([0, 0] : List ℚ).getD i 0 ∧ ([0, 0] : List ℚ).getD i 0 ≤ 10 ∧
            (0 : ℚ) ≤ ([1, 2] : List ℚ).getD i 0 ∧ ([1, 2] : List ℚ).getD i 0 ≤ 10) →
          idx = List.range ([0, 1] : List ℚ).length) :=
  c9_geometric_subset [0, 1] [0, 1] [0, 0] [1, 2] 0 10 0 10 0 10 0 10 rfl rfl rfl

/-- Python `int(x)` on a float/rational: truncation toward zero. -/
def pytrunc (q : ℚ) : ℤ := if 0 ≤ q then q.num / q.den else -((-q).num / (-q).den)

/-- The trivial indices of `MLDataSet.downsample_based_on_label`:
`np.argwhere(abs(data[label] - trivialValue) < tol).flatten()`. -/
def trivialIndices (labelData : List ℚ) (trivialValue tol : ℚ) : List ℕ :=
  (List.range labelData.length).filter
    (fun i => decide (|labelData.getD i 0 - trivialValue| < tol))

/-- The ordinary indices: `np.setdiff1d(np.arange(nCells), trivial_indices)`
(the sorted complement). -/
def ordinaryIndices (labelData : List ℚ) (nCells : ℕ) (trivialValue tol : ℚ) : List ℕ :=
  (List.range nCells).filter (fun i => decide (i ∉ trivialIndices labelData trivialValue tol))

/-- Index selection of `MLDataSet.downsample_based_on_label`:
`np.random.choice` (the process-global random source, threaded here as the
`sample` parameter per the spec's design note) draws `int(n_ordinary * ratio)`
trivial indices without replacement, raising ValueError — modelled as the
error value — when the requested size is negative or exceeds the trivial
population; the kept indices are the drawn trivial indices followed by all
ordinary indices. -/
def downsample_label_indices (sample : List ℕ → ℕ → List ℕ) (labelData : List ℚ)
    (nCells : ℕ) (trivialValue tol ratioQ : ℚ) : Except String (List ℕ) :=
  let trivial := trivialIndices labelData trivialValue tol
  let ordinary := ordinaryIndices labelData nCells trivialValue tol
  let nKeepZ := pytrunc (ratioQ * (ordinary.length : ℚ))
  if nKeepZ < 0 ∨ trivial.length < nKeepZ.toNat then .error "InsufficientSamples"
  else .ok (sample trivial nKeepZ.toNat ++ ordinary)

/-- C3 (amended): exactly `⌊|ordinary| · ratio⌋` trivial indices are drawn
without replacement (failing rather than clamping when fewer exist); the kept
sequence is the drawn trivial indices first — in the order the random source
produced them, not necessarily ascending — followed by all ordinary indices
in ascending original order. -/
theorem c3_sampling_contract (sample : List ℕ → ℕ → List ℕ) (labelData : List ℚ)
    (nCells : ℕ) (trivialValue tol ratioQ : ℚ)
    (hr : 0 ≤ ratioQ)
    (hsample : ∀ (pop : List ℕ) (k : ℕ), pop.Nodup → k ≤ pop.length →
      (sample pop k).length = k ∧ (sample pop k).Nodup ∧ ∀ x ∈ sample pop k, x ∈ pop) :
    (((pytrunc (ratioQ * ((ordinaryIndices labelData nCells trivialValue tol).length : ℚ))).toNat : ℤ)
        = ⌊ratioQ * ((ordinaryIndices labelData nCells trivialValue tol).length : ℚ)⌋
    ∧ ((trivialIndices labelData trivialValue tol).length
          < (pytrunc (ratioQ * ((ordinaryIndices labelData nCells trivialValue tol).length : ℚ))).toNat →
        downsample_label_indices sample labelData nCells trivialValue tol ratioQ
          = .error "InsufficientSamples")
    ∧ ((pytrunc (ratioQ * ((ordinaryIndices labelData nCells trivialValue tol).length : ℚ))).toNat
          ≤ (trivialIndices labelData trivialValue tol).length →
        downsample_label_indices sample labelData nCells trivialValue tol ratioQ
          = .ok (sample (trivialIndices labelData trivialValue tol)
              (pytrunc (ratioQ * ((ordinaryIndices labelData nCells trivialValue tol).length : ℚ))).toNat
            ++ ordinaryIndices labelData nCells trivialValue tol)
        ∧ (sample (trivialIndices labelData trivialValue tol)
            (pytrunc (ratioQ * ((ordinaryIndices labelData nCells trivialValue tol).length : ℚ))).toNat).length
          = (pytrunc (ratioQ * ((ordinaryIndices labelData nCells trivialValue tol).length : ℚ))).toNat
        ∧ (sample (trivialIndices labelData trivialValue tol)
            (pytrunc (ratioQ * ((ordinaryIndices labelData nCells trivialValue tol).length : ℚ))).toNat).Nodup
        ∧ (∀ x ∈ sample (trivialIndices labelData trivialValue tol)
            (pytrunc (ratioQ * ((ordinaryIndices labelData nCells trivialValue tol).length : ℚ))).toNat,
            x ∈ trivialIndices labelData trivialValue tol)
        ∧ List.Sublist (ordinaryIndices labelData nCells trivialValue tol) (List.range nCells)
        ∧ (∀ i, i ∈ ordinaryIndices labelData nCells trivialValue tol
            ↔ i < nCells ∧ i ∉ trivialIndices labelData trivialValue tol))) := by
  have hq : 0 ≤ ratioQ * ((ordinaryIndices labelData nCells trivialValue tol).length : ℚ) := by
    positivity
  have hpt : pytrunc (ratioQ * ((ordinaryIndices labelData nCells trivialValue tol).length : ℚ))
      = ⌊ratioQ * ((ordinaryIndices labelData nCells trivialValue tol).length : ℚ)⌋ := by
    unfold pytrunc
    rw [if_pos hq]
    exact Rat.floor_def.symm
  have hfl0 : 0 ≤ ⌊ratioQ * ((ordinaryIndices labelData nCells trivialValue tol).length : ℚ)⌋ :=
    Int.floor_nonneg.mpr hq
  have hkeq : (((pytrunc (ratioQ * ((ordinaryIndices labelData nCells trivialValue tol).length : ℚ))).toNat : ℤ))
      = ⌊ratioQ * ((ordinaryIndices labelData nCells trivialValue tol).length : ℚ)⌋ := by
    rw [hpt, Int.toNat_of_nonneg hfl0]
  have hnneg : ¬ pytrunc (ratioQ * ((ordinaryIndices labelData nCells trivialValue tol).length : ℚ)) < 0 := by
    rw [hpt]; omega
  refine ⟨hkeq, ?_, ?_⟩
  · intro hlt
    unfold downsample_label_indices
    rw [if_pos (Or.inr hlt)]
  · intro hle
    have htnd : (trivialIndices labelData trivialValue tol).Nodup := by
      unfold trivialIndices
      exact List.Nodup.filter _ (List.nodup_range _)
    obtain ⟨hslen, hsnd, hsmem⟩ := hsample (trivialIndices labelData trivialValue tol) _ htnd hle
    refine ⟨?_, hslen, hsnd, hsmem, ?_, ?_⟩
    · unfold downsample_label_indices
      rw [if_neg ?_]
      push_neg
      exact ⟨not_lt.mp hnneg, hle⟩
    · unfold ordinaryIndices
      exact List.filter_sublist _
    · intro i
      unfold ordinaryIndices
      simp only [List.mem_filter, List.mem_range, decide_eq_true_eq]

/-- A concrete without-replacement sampler returning its draw in descending
order, as `np.random.choice` can: the k-element draw from the front,
reversed. -/
def revTake (pop : List ℕ) (k : ℕ) : List ℕ := (pop.take k).reverse

/-- C3 counterexample: with label data [1,1,2,3], trivialValue 1, tol 1/20 and
ratio 1, the trivial indices are [0,1] and the ordinary indices [2,3]; a
random draw returning [1,0] (a legitimate without-replacement sample) makes
the kept sequence [1,0,2,3] — the sampled-trivial block is not in ascending
original order, so the claimed ordering [0,1,2,3] does not hold. -/
theorem c3_counterexample :
    downsample_label_indices revTake [1, 1, 2, 3] 4 1 (mkRat 1 20) 1 = .ok [1, 0, 2, 3]
    ∧ ([1, 0] : List ℕ).Nodup
    ∧ (∀ x ∈ ([1, 0] : List ℕ), x ∈ ([0, 1] : List ℕ))
    ∧ ([1, 0, 2, 3] : List ℕ) ≠ [0, 1] ++ [2, 3] := by
  refine ⟨by decide, by decide, by decide, by decide⟩

/-- Witness for C3 with the in-order sampler `take` on label data [1, 2]. -/
theorem c3_witness :
    downsample_label_indices (fun pop k => pop.take k) [1, 2] 2 1 (mkRat 1 20) 1
      = .ok [0, 1] := by
  have hs : ∀ (pop : List ℕ) (k : ℕ), pop.Nodup → k ≤ pop.length →
      ((fun (pop : List ℕ) (k : ℕ) => pop.take k) pop k).length = k
      ∧ ((fun (pop : List ℕ) (k : ℕ) => pop.take k) pop k).Nodup
      ∧ ∀ x ∈ (fun (pop : List ℕ) (k : ℕ) => pop.take k) pop k, x ∈ pop := by
    intro pop k hnd hk
    refine ⟨?_, ?_, ?_⟩
    · simp [List.length_take, Nat.min_eq_left hk]
    · exact List.Nodup.sublist (List.take_sublist _ _) hnd
    · intro x hx
      exact List.take_subset _ _ hx
  have h := c3_sampling_contract (fun pop k => pop.take k) [1, 2] 2 1 (mkRat 1 20) 1
    (by decide) hs
  have h3 := h.2.2 (by decide)
  exact h3.1.trans (by decide)

/-- Type of the scipy `griddata((px, py), vals, (qx, qy), method='linear',
fill_value=nan)` call: a black box per the spec, returning one optional value
per query point (`none` = the NaN fill outside the convex hull). -/
abbrev Interp := List ℚ → List ℚ → List ℚ → List ℚ → List ℚ → List (Option ℚ)

/-- numpy subtraction's NaN propagation: nan − x = nan. -/
def optSub (a : Option ℚ) (b : ℚ) : Option ℚ := a.map (fun x => x - b)

/-- `FoamDiff.interp` for one case: interpolate both velocity components of
the simulation onto the reference points and form the per-point difference
rows `(interp_x − um, interp_y − vm)` (the `np.vstack(...).T`). -/
def FoamDiff_interp (gd : Interp) (simCx simCy simUx simUy rxx ryy um vm : List ℚ) :
    List (Option ℚ × Option ℚ) :=
  (List.zipWith optSub (gd simCx simCy simUx rxx ryy) um).zip
    (List.zipWith optSub (gd simCx simCy simUy rxx ryy) vm)

/-- `(diffs ** 2).sum(axis=1)` for one row; NaN propagates. -/
def sqNormRow : Option ℚ × Option ℚ → Option ℚ
  | (some a, some b) => some (a * a + b * b)
  | _ => none

/-- `np.where(mask, vals, np.nan)`. -/
def maskNaN (mask : List Bool) (vs : List (Option ℚ)) : List (Option ℚ) :=
  List.zipWith (fun m v => if m then v else none) mask vs

/-- `np.nanmean`: mean ignoring NaN entries; an all-NaN (or empty) input
yields NaN (numpy emits only a RuntimeWarning, no exception). -/
def nanmean (vs : List (Option ℚ)) : Option ℚ :=
  if (vs.filterMap id).isEmpty then none
  else some ((vs.filterMap id).sum / ((vs.filterMap id).length : ℚ))

/-- `FoamDiff.Metrics` for one case: the pair (MSE, MAE) where MSE is the
nanmean of the box-masked squared norms and MAE the nanmean of the box-masked
`np.sqrt` of the squared norms.  `np.sqrt` is the black-box parameter
`sqrtF` (square roots are irrational on ℚ); it maps NaN to NaN. -/
def FoamDiff_Metrics (sqrtF : ℚ → ℚ) (diff : List (Option ℚ × Option ℚ)) (mask : List Bool) :
    Option ℚ × Option ℚ :=
  (nanmean (maskNaN mask (diff.map sqNormRow)),
   nanmean (maskNaN mask ((diff.map sqNormRow).map (Option.map sqrtF))))

/-- Stated from the spec's words, for comparison with the code: the masked
points whose difference is defined, as pairs of difference components. -/
def specIncluded (diff : List (Option ℚ × Option ℚ)) (mask : List Bool) : List (ℚ × ℚ) :=
  (diff.zip mask).filterMap (fun p =>
    match p with
    | ((some a, some b), true) => some (a, b)
    | _ => none)

/-- Stated from the spec's words: mean of a list, NaN (`none`) when empty. -/
def specMean (l : List ℚ) : Option ℚ :=
  if l.isEmpty then none else some (l.sum / (l.length : ℚ))

theorem filterMap_maskNaN_map (rf : Option ℚ × Option ℚ → Option ℚ) (h : ℚ × ℚ → ℚ)
    (hrf1 : ∀ a b, rf (some a, some b) = some (h (a, b)))
    (hrf2 : ∀ p : Option ℚ × Option ℚ, p.1 = none ∨ p.2 = none → rf p = none) :
    ∀ (diff : List (Option ℚ × Option ℚ)) (mask : List Bool),
      (maskNaN mask (diff.map rf)).filterMap id = (specIncluded diff mask).map h := by
  intro diff
  induction diff with
  | nil => intro mask; cases mask <;> rfl
  | cons p diff ih =>
    intro mask
    cases mask with
    | nil => rfl
    | cons m mask =>
      have hstep : maskNaN (m :: mask) ((p :: diff).map rf)
          = (if m then rf p else none) :: maskNaN mask (diff.map rf) := rfl
      have hspec : specIncluded (p :: diff) (m :: mask)
          = (match ((p, m) : (Option ℚ × Option ℚ) × Bool) with
             | ((some a, some b), true) => some (a, b)
             | _ => none).toList ++ specIncluded diff mask := by
        cases m with
        | false =>
          rcases p with ⟨pa, pb⟩
          cases pa <;> cases pb <;> rfl
        | true =>
          rcases p with ⟨pa, pb⟩
          cases pa <;> cases pb <;> rfl
      cases m with
      | false =>
        rw [hstep, hspec]
        simp only [if_false]
        rcases p with ⟨pa, pb⟩
        cases pa <;> cases pb <;> simpa using ih mask
      | true =>
        rw [hstep, hspec]
        simp only [if_true]
        rcases p with ⟨pa, pb⟩
        cases pa with
        | none =>
          rw [hrf2 (none, pb) (Or.inl rfl)]
          cases pb <;> simpa using ih mask
        | some a =>
          cases pb with
          | none =>
            rw [hrf2 (some a, none) (Or.inr rfl)]
            simpa using ih mask
          | some b =>
            rw [hrf1 a b]
            simpa using ih mask

theorem nanmean_eq_specMean (vs : List (Option ℚ)) :
    nanmean vs = specMean (vs.filterMap id) := rfl

/-- C2: the MSE metric is the mean over box-masked points with a defined
difference of the squared Euclidean norm of the per-point difference vector
(simulation minus reference over both velocity components); the MAE metric is
the mean over the same points of the Euclidean norm (np.sqrt of the squared
norm); points with an undefined difference (NaN fill outside the hull) are
excluded from both means; if every point is excluded the metrics are NaN
(`none`), not an exception. -/
theorem c2_metrics_mean (sqrtF : ℚ → ℚ) (gd : Interp)
    (simCx simCy simUx simUy rxx ryy um vm : List ℚ) (mask : List Bool) :
    let diff := FoamDiff_interp gd simCx simCy simUx simUy rxx ryy um vm
    let incl := specIncluded diff mask
    (FoamDiff_Metrics sqrtF diff mask
      = (specMean (incl.map (fun p => p.1 * p.1 + p.2 * p.2)),
         specMean (incl.map (fun p => sqrtF (p.1 * p.1 + p.2 * p.2))))
    ∧ (incl = [] → FoamDiff_Metrics sqrtF diff mask = (none, none))) := by
  intro diff incl
  have hmse : (maskNaN mask (diff.map sqNormRow)).filterMap id
      = incl.map (fun p => p.1 * p.1 + p.2 * p.2) := by
    refine filterMap_maskNaN_map sqNormRow (fun p => p.1 * p.1 + p.2 * p.2) ?_ ?_ diff mask
    · intro a b; rfl
    · intro p hp
      rcases p with ⟨pa, pb⟩
      rcases hp with h | h
      · simp at h; rw [h]; cases pb <;> rfl
      · simp at h; rw [h]; cases pa <;> rfl
  have hmap : (diff.map sqNormRow).map (Option.map sqrtF)
      = diff.map (fun p => Option.map sqrtF (sqNormRow p)) := by
    rw [List.map_map]; rfl
  have hmae : (maskNaN mask ((diff.map sqNormRow).map (Option.map sqrtF))).filterMap id
      = incl.map (fun p => sqrtF (p.1 * p.1 + p.2 * p.2)) := by
    rw [hmap]
    refine filterMap_maskNaN_map (fun p => Option.map sqrtF (sqNormRow p))
      (fun p => sqrtF (p.1 * p.1 + p.2 * p.2)) ?_ ?_ diff mask
    · intro a b; rfl
    · intro p hp
      rcases p with ⟨pa, pb⟩
      rcases hp with h | h
      · simp at h; rw [h]; cases pb <;> rfl
      · simp at h; rw [h]; cases pa <;> rfl
  have hmain : FoamDiff_Metrics sqrtF diff mask
      = (specMean (incl.map (fun p => p.1 * p.1 + p.2 * p.2)),
         specMean (incl.map (fun p => sqrtF (p.1 * p.1 + p.2 * p.2)))) := by
    unfold FoamDiff_Metrics
    rw [nanmean_eq_specMean, nanmean_eq_specMean, hmse, hmae]
  refine ⟨hmain, ?_⟩
  intro hincl
  rw [hmain, hincl]
  rfl

/-- Witness for C2: with interpolation returning NaN at the single reference
point (outside the hull), the masked set is empty and both metrics are NaN. -/
theorem c2_witness :
    FoamDiff_Metrics id (FoamDiff_interp (fun _ _ _ _ _ => [none]) [] [] [] [] [0] [0] [0] [0])
      [true] = (none, none) :=
  ((c2_metrics_mean id (fun _ _ _ _ _ => [none]) [] [] [] [] [0] [0] [0] [0] [true]).2)
    (by decide)

/-- `FoamDiff.boxMask`: the four dict accesses `box["xmax"]`, `box["xmin"]`,
`box["ymax"]`, `box["ymin"]` (a missing key raises KeyError, modelled as
`none`; a coordinate length mismatch likewise raises in numpy), then the
elementwise inclusive comparisons over the reference coordinates.  The z
entries of the box are never consulted. -/
def FoamDiff_boxMask (box : List (String × ℚ)) (xx yy : List ℚ) : Option (List Bool) :=
  match box.lookup "xmax", box.lookup "xmin", box.lookup "ymax", box.lookup "ymin" with
  | some xmax, some xmin, some ymax, some ymin =>
    if xx.length = yy.length then
      some ((xx.zip yy).map (fun p =>
        decide (p.1 ≤ xmax) && decide (p.1 ≥ xmin) &&
        decide (p.2 ≤ ymax) && decide (p.2 ≥ ymin)))
    else none
  | _, _, _, _ => none

/-- C4 (amended): the boxMask requires all four of xmin/xmax/ymin/ymax to be
present (a missing bound raises KeyError instead of meaning unbounded); when
they are present the mask selects exactly the reference points inside the
inclusive x/y bounds, and any z bounds in the box are ignored. -/
theorem c4_boxmask (box : List (String × ℚ)) (xx yy : List ℚ) (xmax xmin ymax ymin : ℚ)
    (h1 : box.lookup "xmax" = some xmax) (h2 : box.lookup "xmin" = some xmin)
    (h3 : box.lookup "ymax" = some ymax) (h4 : box.lookup "ymin" = some ymin)
    (hlen : xx.length = yy.length) :
    ∃ mask, FoamDiff_boxMask box xx yy = some mask
      ∧ mask.length = xx.length
      ∧ ∀ i, i < xx.length →
          (mask.getD i false = true ↔
            (xmin ≤ xx.getD i 0 ∧ xx.getD i 0 ≤ xmax ∧
             ymin ≤ yy.getD i 0 ∧ yy.getD i 0 ≤ ymax)) := by
  refine ⟨(xx.zip yy).map (fun p =>
      decide (p.1 ≤ xmax) && decide (p.1 ≥ xmin) &&
      decide (p.2 ≤ ymax) && decide (p.2 ≥ ymin)), ?_, ?_, ?_⟩
  · unfold FoamDiff_boxMask
    rw [h1, h2, h3, h4]
    dsimp only
    rw [if_pos hlen]
  · rw [List.length_map, List.length_zip, hlen, Nat.min_self]
  · intro i hi
    have hiz : i < (xx.zip yy).length := by
      rw [List.length_zip, hlen, Nat.min_self]
      rw [hlen] at hi
      exact hi
    have him : i < ((xx.zip yy).map (fun p =>
        decide (p.1 ≤ xmax) && decide (p.1 ≥ xmin) &&
        decide (p.2 ≤ ymax) && decide (p.2 ≥ ymin))).length := by
      rw [List.length_map]; exact hiz
    rw [List.getD_eq_getElem _ _ him, List.getElem_map, List.getElem_zip]
    have hix : i < xx.length := hi
    have hiy : i < yy.length := by rw [← hlen]; exact hix
    rw [List.getD_eq_getElem _ _ hix, List.getD_eq_getElem _ _ hiy]
    simp only [Bool.and_eq_true, decide_eq_true_eq, ge_iff_le]
    tauto

/-- C4 counterexample: a box without the "xmin" key (and with z bounds) makes
boxMask fail with KeyError rather than treating the omitted bound as
unbounded and returning a mask. -/
theorem c4_counterexample :
    FoamDiff_boxMask [("xmax", 1), ("ymax", 1), ("ymin", 0), ("zmin", 5), ("zmax", 6)]
      [0] [0] = none
    ∧ (none : Option (List Bool)) ≠ some [true] := by
  refine ⟨by decide, by decide⟩

/-- Witness for C4 on a complete box (whose z bounds exclude everything yet
are ignored) and one in-box reference point. -/
theorem c4_witness :
    ∃ mask, FoamDiff_boxMask
        [("xmin", 0), ("xmax", 1), ("ymin", 0), ("ymax", 1), ("zmin", 5), ("zmax", 6)]
        [mkRat 1 2] [mkRat 1 2] = some mask
      ∧ mask.length = ([mkRat 1 2] : List ℚ).length
      ∧ ∀ i, i < ([mkRat 1 2] : List ℚ).length →
          (mask.getD i false = true ↔
            ((0 : ℚ) ≤ ([mkRat 1 2] : List ℚ).getD i 0 ∧ ([mkRat 1 2] : List ℚ).getD i 0 ≤ 1 ∧
             (0 : ℚ) ≤ ([mkRat 1 2] : List ℚ).getD i 0 ∧ ([mkRat 1 2] : List ℚ).getD i 0 ≤ 1)) :=
  c4_boxmask [("xmin", 0), ("xmax", 1), ("ymin", 0), ("ymax", 1), ("zmin", 5), ("zmax", 6)]
    [mkRat 1 2] [mkRat 1 2] 1 0 1 0 (by decide) (by decide) (by decide) (by decide) rfl

/-- The seven parsed reference arrays `{name}_{suffix}.txt` (file-system I/O
is outside the embedding; these are the `np.genfromtxt` results). -/
structure RefFiles where
  xx : List ℚ
  yy : List ℚ
  um : List ℚ
  vm : List ℚ
  uu : List ℚ
  vv : List ℚ
  ww : List ℚ
deriving DecidableEq

/-- The fields dictionary a `RefField` instance ends up with. -/
structure RefOut where
  xx : List ℚ
  yy : List ℚ
  um : List ℚ
  vm : Option (List ℚ)
  k : Option (List ℚ)
deriving DecidableEq

/-- numpy scalar broadcast `0.5 * array`. -/
def halfList (a : List ℚ) : List ℚ := a.map (fun x => x / 2)

/-- numpy 1-d array addition: defined for equal lengths only (the degenerate
length-1 broadcast is not exercised by these reference arrays); a mismatch
raises, modelled as `none`. -/
def npAdd (a b : List ℚ) : Option (List ℚ) :=
  if a.length = b.length then some (List.zipWith (fun x y => x + y) a b) else none

/-- `RefField.read_field`: always loads xx, yy, um; loads vm unless onlyUx;
computes k = 0.5*uu + 0.5*vv + 0.5*ww only when (not onlyUx) and readK.
`none` models the construction raising (array shape mismatch). -/
def RefField_read (f : RefFiles) (onlyUx readK : Bool) : Option RefOut :=
  if onlyUx then some ⟨f.xx, f.yy, f.um, none, none⟩
  else if readK then
    match npAdd (halfList f.uu) (halfList f.vv) with
    | none => none
    | some s =>
      match npAdd s (halfList f.ww) with
      | none => none
      | some k => some ⟨f.xx, f.yy, f.um, some f.vm, some k⟩
  else some ⟨f.xx, f.yy, f.um, some f.vm, none⟩

/-- Stated from the spec's words: elementwise ½(uu + vv + ww). -/
def specKineticEnergy (uu vv ww : List ℚ) : List ℚ :=
  (List.zipWith (fun a b => a + b) (List.zipWith (fun a b => a + b) uu vv) ww).map
    (fun x => x / 2)

theorem half_add_assoc (uu : List ℚ) : ∀ (vv ww : List ℚ),
    List.zipWith (fun x y => x + y)
        (List.zipWith (fun x y => x + y) (halfList uu) (halfList vv)) (halfList ww)
      = specKineticEnergy uu vv ww := by
  induction uu with
  | nil => intro vv ww; rfl
  | cons a uu ih =>
    intro vv ww
    cases vv with
    | nil => rfl
    | cons b vv =>
      cases ww with
      | nil => rfl
      | cons c ww =>
        have hih := ih vv ww
        simp only [halfList, specKineticEnergy] at hih ⊢
        simp only [List.map_cons, List.zipWith_cons_cons]
        rw [hih]
        congr 1
        ring

/-- C7 (amended): the turbulent-kinetic-energy array is loaded exactly when
readK is set AND onlyUx is not set (not "exactly when readK"); when loaded it
equals elementwise ½(uu + vv + ww). -/
theorem c7_kinetic_energy (f : RefFiles) (onlyUx readK : Bool) (out : RefOut)
    (h : RefField_read f onlyUx readK = some out) :
    (out.k.isSome ↔ (onlyUx = false ∧ readK = true))
    ∧ (∀ l, out.k = some l → l = specKineticEnergy f.uu f.vv f.ww) := by
  cases onlyUx with
  | true =>
    unfold RefField_read at h
    rw [if_pos rfl] at h
    simp only [Option.some.injEq] at h
    subst h
    simp
  | false =>
    cases readK with
    | false =>
      unfold RefField_read at h
      rw [if_neg (by simp), if_neg (by simp)] at h
      simp only [Option.some.injEq] at h
      subst h
      simp
    | true =>
      unfold RefField_read at h
      rw [if_neg (by simp), if_pos rfl] at h
      cases h1 : npAdd (halfList f.uu) (halfList f.vv) with
      | none => simp only [h1] at h; cases h
      | some s =>
        simp only [h1] at h
        cases h2 : npAdd s (halfList f.ww) with
        | none => simp only [h2] at h; cases h
        | some k =>
          simp only [h2, Option.some.injEq] at h
          subst h
          refine ⟨by simp, ?_⟩
          intro l hl
          simp only [Option.some.injEq] at hl
          subst hl
          unfold npAdd at h1 h2
          by_cases e1 : (halfList f.uu).length = (halfList f.vv).length
          · rw [if_pos e1] at h1
            simp only [Option.some.injEq] at h1
            subst h1
            by_cases e2 : (List.zipWith (fun x y => x + y) (halfList f.uu)
                (halfList f.vv)).length = (halfList f.ww).length
            · rw [if_pos e2] at h2
              simp only [Option.some.injEq] at h2
              subst h2
              exact half_add_assoc f.uu f.vv f.ww
            · rw [if_neg e2] at h2; cases h2
          · rw [if_neg e1] at h1; cases h1

/-- C7 counterexample: with onlyUx and readK both set, k is not loaded at all,
contradicting "loaded exactly when includeKineticEnergy is set". -/
theorem c7_counterexample :
    RefField_read ⟨[0], [0], [1], [2], [3], [4], [5]⟩ true true
      = some ⟨[0], [0], [1], none, none⟩ := by decide

/-- Witness for C7 with onlyUx unset and readK set on length-1 arrays. -/
theorem c7_witness :
    ((⟨[0], [0], [1], none, some [3]⟩ : RefOut).k.isSome ↔ (false = false ∧ true = true))
    ∧ (∀ l, (⟨[0], [0], [1], none, some [3]⟩ : RefOut).k = some l →
        l = specKineticEnergy [1] [2] [3]) := by
  have h := c7_kinetic_energy ⟨[0], [0], [1], [5], [1], [2], [3]⟩ false true
    ⟨[0], [0], [1], some [5], some [3]⟩ (by decide)
  refine ⟨by simp, ?_⟩
  intro l hl
  have h2 := h.2 l ?_
  · exact h2
  · simpa using hl

/-- One loaded simulation case as `extractLine` consumes it: the cell-centre
coordinates, the two used velocity-component columns `U[:,0]`/`U[:,1]`, and
the optional per-cell k data (`none` = the fields dict has no usable "k",
making the `try` block raise). -/
structure SimCase where
  Cx : List ℚ
  Cy : List ℚ
  Ux : List ℚ
  Uy : List ℚ
  k : Option (List ℚ)
deriving DecidableEq

/-- The attached reference dataset (constructed with readK equal to the
comparison's readK, so its k array is present whenever consulted). -/
structure RefData where
  xx : List ℚ
  yy : List ℚ
  um : List ℚ
  vm : List ℚ
  k : List ℚ
deriving DecidableEq

/-- `self.lineData[key][name]` for one case: `k = none` when readK is off
(no "k" entry), `some none` when the try block failed and the entry was set
to Python None, `some (some vals)` on success. -/
structure CaseLineOut where
  xx : List ℚ
  yy : List ℚ
  u : List (Option ℚ)
  v : List (Option ℚ)
  k : Option (Option (List (Option ℚ)))
deriving DecidableEq

/-- `self.lineData[key]["Ref"]`: `k = none` when the entry is not written. -/
structure RefLineOut where
  xx : List ℚ
  yy : List ℚ
  u : List (Option ℚ)
  v : List (Option ℚ)
  k : Option (List (Option ℚ))
deriving DecidableEq

/-- The data `extractLine` writes for one line key, plus the diagnostics the
except-branch prints. -/
structure LineOut where
  caseOuts : List (String × CaseLineOut)
  refOut : Option RefLineOut
  diagnostics : List String
deriving DecidableEq

/-- `np.linspace(a, b, n)`. -/
def linspace (a b : ℚ) (n : ℕ) : List ℚ :=
  if n ≤ 1 then (List.range n).map (fun _ => a)
  else (List.range n).map (fun j => a + (b - a) * (j : ℚ) / ((n : ℚ) - 1))

/-- numpy slicing `xs[::s]`. -/
def stride (l : List ℚ) (s : ℕ) : List ℚ :=
  (List.range l.length).filterMap (fun i => if i % s = 0 then l.get? i else none)

/-- The per-case body of the `for name in self.cases` loop of `extractLine`:
u and v are always interpolated; when readK is set, the k entry is the
interpolation when the case has k data and Python None (with a printed
diagnostic and k_success set to False) when the try block raises. -/
def caseLineOut (gd : Interp) (readK : Bool) (xx yy : List ℚ) (c : SimCase) : CaseLineOut :=
  { xx := xx, yy := yy,
    u := gd c.Cx c.Cy c.Ux xx yy,
    v := gd c.Cx c.Cy c.Uy xx yy,
    k := if readK then some (c.k.map (fun kd => gd c.Cx c.Cy kd xx yy)) else none }

/-- `FoamLineComparison.extractLine` for one line key: interpolates every case
onto the linspace points, then (when a reference is attached) the reference
data onto the refSkip-strided points; the reference k entry is written only
when readK is set AND the k interpolation succeeded for every case. -/
def extractLineKey (gd : Interp) (cs : List (String × SimCase)) (ref : Option RefData)
    (readK : Bool) (sx sy ex ey : ℚ) (npCase refSkip : ℕ) : LineOut :=
  let xx := linspace sx ex npCase
  let yy := linspace sy ey npCase
  let kSuccess := if readK then cs.all (fun p => p.2.k.isSome) else true
  { caseOuts := cs.map (fun p => (p.1, caseLineOut gd readK xx yy p.2)),
    refOut := ref.map (fun r =>
      { xx := stride xx refSkip, yy := stride yy refSkip,
        u := gd r.xx r.yy r.um (stride xx refSkip) (stride yy refSkip),
        v := gd r.xx r.yy r.vm (stride xx refSkip) (stride yy refSkip),
        k := if readK && kSuccess then
              some (gd r.xx r.yy r.k (stride xx refSkip) (stride yy refSkip))
            else none }),
    diagnostics := if readK then (cs.filter (fun p => p.2.k.isNone)).map Prod.fst else [] }

/-- C6 (amended): with kinetic energy requested, a case with no k field gets
its k entry marked unavailable (Python None) and a diagnostic is emitted;
every case's u/v/k entries are computed from that case alone, so no other
case's results are affected, and the reference u/v entries are still written —
but, contrary to the claim, the reference dataset's k entry is suppressed for
the whole line whenever any case's k failed. -/
theorem c6_isolation (gd : Interp) (cs : List (String × SimCase)) (r : RefData)
    (sx sy ex ey : ℚ) (npCase refSkip : ℕ) (nm : String) (c : SimCase)
    (hmem : (nm, c) ∈ cs) (hk : c.k = none) :
    let xx := linspace sx ex npCase
    let yy := linspace sy ey npCase
    let out := extractLineKey gd cs (some r) true sx sy ex ey npCase refSkip
    (out.caseOuts = cs.map (fun p => (p.1, caseLineOut gd true xx yy p.2))
    ∧ (nm, caseLineOut gd true xx yy c) ∈ out.caseOuts
    ∧ (caseLineOut gd true xx yy c).k = some none
    ∧ nm ∈ out.diagnostics
    ∧ ∃ ro, out.refOut = some ro
        ∧ ro.u = gd r.xx r.yy r.um (stride xx refSkip) (stride yy refSkip)
        ∧ ro.v = gd r.xx r.yy r.vm (stride xx refSkip) (stride yy refSkip)
        ∧ ro.k = none) := by
  intro xx yy out
  have hfail : cs.all (fun p => p.2.k.isSome) = false := by
    rw [List.all_eq_false]
    exact ⟨(nm, c), hmem, by simp [hk]⟩
  refine ⟨rfl, ?_, ?_, ?_, ?_⟩
  · exact List.mem_map_of_mem (fun p => (p.1, caseLineOut gd true xx yy p.2)) hmem
  · simp [caseLineOut, hk]
  · show nm ∈ (if true then (cs.filter (fun p => p.2.k.isNone)).map Prod.fst else [])
    rw [if_pos rfl]
    refine List.mem_map.mpr ⟨(nm, c), List.mem_filter.mpr ⟨hmem, by simp [hk]⟩, rfl⟩
  · refine ⟨_, rfl, rfl, rfl, ?_⟩
    show (if true && (if true then cs.all (fun p => p.2.k.isSome) else true) then
        some (gd r.xx r.yy r.k (stride xx refSkip) (stride yy refSkip)) else none) = none
    rw [if_pos rfl, hfail]
    rfl

/-- C6 counterexample: two cases A (with k) and B (without k), reference
attached with k data, kinetic energy requested.  B's entry is marked
unavailable and diagnosed, A is unaffected — but the reference's k entry is
suppressed even though the reference has k data, contradicting the claim
that no other entry (including the reference dataset's) is affected. -/
theorem c6_counterexample :
    ((extractLineKey (fun _ _ vals qx _ => qx.map (fun _ => some (vals.getD 0 0)))
        [("A", ⟨[0], [0], [1], [2], some [7]⟩), ("B", ⟨[0], [0], [1], [2], none⟩)]
        (some ⟨[0], [0], [3], [4], [9]⟩) true 0 0 1 1 2 1).caseOuts.lookup "B").map
          CaseLineOut.k = some (some none)
    ∧ ((extractLineKey (fun _ _ vals qx _ => qx.map (fun _ => some (vals.getD 0 0)))
        [("A", ⟨[0], [0], [1], [2], some [7]⟩), ("B", ⟨[0], [0], [1], [2], none⟩)]
        (some ⟨[0], [0], [3], [4], [9]⟩) true 0 0 1 1 2 1).caseOuts.lookup "A").map
          CaseLineOut.k = some (some (some [some 7, some 7]))
    ∧ (extractLineKey (fun _ _ vals qx _ => qx.map (fun _ => some (vals.getD 0 0)))
        [("A", ⟨[0], [0], [1], [2], some [7]⟩), ("B", ⟨[0], [0], [1], [2], none⟩)]
        (some ⟨[0], [0], [3], [4], [9]⟩) true 0 0 1 1 2 1).diagnostics = ["B"]
    ∧ (extractLineKey (fun _ _ vals qx _ => qx.map (fun _ => some (vals.getD 0 0)))
        [("A", ⟨[0], [0], [1], [2], some [7]⟩), ("B", ⟨[0], [0], [1], [2], none⟩)]
        (some ⟨[0], [0], [3], [4], [9]⟩) true 0 0 1 1 2 1).refOut.map RefLineOut.k
      = some none := by
  refine ⟨by decide, by decide, by decide, by decide⟩

/-- Witness for C6 at the counterexample's configuration, through the amended
theorem. -/
theorem c6_witness :
    let xx := linspace 0 1 2
    let yy := linspace 0 1 2
    let out := extractLineKey (fun _ _ _ qx _ => qx.map (fun _ => none))
      [("B", ⟨[0], [0], [1], [2], none⟩)] (some ⟨[0], [0], [3], [4], [9]⟩)
      true 0 0 1 1 2 1
    (out.caseOuts = [("B", ⟨[0], [0], [1], [2], none⟩)].map
        (fun p => (p.1, caseLineOut (fun _ _ _ qx _ => qx.map (fun _ => none)) true xx yy p.2))
    ∧ ("B", caseLineOut (fun _ _ _ qx _ => qx.map (fun _ => none)) true xx yy
        ⟨[0], [0], [1], [2], none⟩) ∈ out.caseOuts
    ∧ (caseLineOut (fun _ _ _ qx _ => qx.map (fun _ => none)) true xx yy
        ⟨[0], [0], [1], [2], none⟩).k = some none
    ∧ "B" ∈ out.diagnostics
    ∧ ∃ ro, out.refOut = some ro
        ∧ ro.u = (fun _ _ _ qx _ => qx.map (fun _ => (none : Option ℚ))) [0] [0] [3]
            (stride xx 1) (stride yy 1)
        ∧ ro.v = (fun _ _ _ qx _ => qx.map (fun _ => (none : Option ℚ))) [0] [0] [4]
            (stride xx 1) (stride yy 1)
        ∧ ro.k = none) :=
  c6_isolation (fun _ _ _ qx _ => qx.map (fun _ => none))
    [("B", ⟨[0], [0], [1], [2], none⟩)] ⟨[0], [0], [3], [4], [9]⟩
    0 0 1 1 2 1 "B" ⟨[0], [0], [1], [2], none⟩ (by decide) rfl

end PyOFPost
